import Mathlib

/-!
Verification of the abinitio workflow orchestrator (pymatgen/io/abinitio/workflow.py).

The Python source is embedded shallowly: the pure numeric routines become Lean
functions over `ℚ`, fallible Python code (exceptions) returns `Except PyErr`,
and the stateful workflow scheduler is modelled by explicit state passing over
the workflow's ordered task list.  External collaborators (the Task class, the
unit-conversion constant, the strategy generator, the exit_iteration hook) are
not part of the source file; their contracts are modelled from the
specification and carry a doc comment saying so.
-/

namespace Abiflow

/-! ## Convergence analysis: check_conv (workflow.py lines 746-786) -/

/-- Python runtime errors that the embedded functions can raise:
`valueError msg` models a `ValueError` with a descriptive message,
`zeroDivisionError` the interpreter's bare `ZeroDivisionError`, and
`indexError` an `IndexError` from list indexing. -/
inductive PyErr where
  | valueError (msg : String)
  | zeroDivisionError
  | indexError
deriving DecidableEq

/-- Total list lookup used by the embedding; the default `0` is returned only
out of range, and every use below is guarded so that the default is never
reached on the paths the Python code takes. -/
def pyNth : List ℚ → Nat → ℚ
  | [], _ => 0
  | v :: _, 0 => v
  | _ :: vs, n + 1 => pyNth vs n

/-- Python list indexing `l[i]`: a negative index counts from the end
(`l[-1]` is the last element); an index out of range raises `IndexError`. -/
def pyGet (l : List ℚ) (i : Int) : Except PyErr ℚ :=
  let n : Int := l.length
  let j : Int := if i < 0 then i + n else i
  if 0 ≤ j ∧ j < n then .ok (pyNth l j.toNat) else .error .indexError

/-- The descending scan of `check_conv` (workflow.py lines 781-783):
`for i in range(numpts-1, -1, -1): if vdiff[i] > tol: break`.
Called with fuel `k`, it inspects index `k-1` first; it returns the loop
variable's final value: the rightmost index whose deviation exceeds `tol`,
or `0` when the loop runs to completion without breaking. -/
def scanBreak (vdiff : List ℚ) (tol : ℚ) : Nat → Nat
  | 0 => 0
  | j + 1 => if tol < pyNth vdiff j then j else scanBreak vdiff tol j

/-- The index computation of `check_conv` (workflow.py lines 777-786) applied
to the deviation list `vdiff`:

    numpts = len(vdiff)
    i = -2
    if (numpts > min_numpts) and vdiff[-2] < tol:
        for i in range(numpts-1, -1, -1):
            if vdiff[i] > tol: break
        if (numpts - i -1) < min_numpts: i = -2
    return i + 1
-/
def convIndex (vdiff : List ℚ) (tol : ℚ) (min_numpts : Int) : Except PyErr Int :=
  let numpts := vdiff.length
  if (numpts : Int) > min_numpts then
    match pyGet vdiff (-2) with
    | .error e => .error e
    | .ok d2 =>
      if d2 < tol then
        let i : Nat := scanBreak vdiff tol numpts
        if ((numpts : Int) - (i : Int) - 1) < min_numpts then .ok (-1) else .ok ((i : Int) + 1)
      else .ok (-1)
  else .ok (-1)

/-- `check_conv(values, tol, min_numpts, mode, vinf)` (workflow.py lines
746-786).  The reference is `values[-1]` when `vinf` is `None`; the deviation
list is `[abs(v - vinf) for v in values]` in mode `"abs"` and
`[abs(v - vinf) / vinf for v in values]` in mode `"rel"` (where Python's
division raises `ZeroDivisionError` as soon as the first element is computed
with `vinf == 0`); any other mode raises `ValueError("Wrong mode ...")`. -/
def checkConv (values : List ℚ) (tol : ℚ) (min_numpts : Int) (mode : String)
    (vinf? : Option ℚ) : Except PyErr Int :=
  match (match vinf? with | some v => Except.ok v | none => pyGet values (-1)) with
  | .error e => .error e
  | .ok vinf =>
    match (if mode = "abs" then Except.ok (values.map fun v => |v - vinf|)
           else if mode = "rel" then
             (if values ≠ [] ∧ vinf = 0 then Except.error PyErr.zeroDivisionError
              else Except.ok (values.map fun v => |v - vinf| / vinf))
           else Except.error (PyErr.valueError ("Wrong mode " ++ mode))) with
    | .error e => .error e
    | .ok vdiff => convIndex vdiff tol min_numpts

/-- Recognizes a result that is a descriptive (guarded) error, i.e. a
`ValueError` carrying a message, as opposed to a bare interpreter error such
as `ZeroDivisionError`. -/
def isValueError : Except PyErr Int → Bool
  | .error (.valueError _) => true
  | _ => false

/-! ## The task contract (external collaborator, modelled from the spec) -/

/-- Modelled from the spec: the Task lifecycle states, a totally ordered
integer enumeration `INIT < READY < SUB < RUN < DONE < ERROR < OK` (the Task
class lives outside this source file; the spec fixes
`INIT < READY < SUB < RUN < DONE < OK` with the ERROR branch terminal). -/
inductive Status where
  | S_INIT
  | S_READY
  | S_SUB
  | S_RUN
  | S_DONE
  | S_ERROR
  | S_OK
deriving DecidableEq

/-- The integer value behind each status; Python compares statuses as ints. -/
def Status.toNat : Status → Nat
  | .S_INIT => 1
  | .S_READY => 2
  | .S_SUB => 4
  | .S_RUN => 8
  | .S_DONE => 16
  | .S_ERROR => 32
  | .S_OK => 64

/-- Modelled from the spec: the Task contract as the orchestrator sees it —
an integer id unique within its workflow, a mutable status, the ids of the
upstream tasks its Links reference, and the cpu-capacity attribute
`tot_ncpus` used for resource accounting. -/
structure Task where
  task_id : Nat
  status : Status
  links : List Nat
  tot_ncpus : Nat
deriving DecidableEq

/-- The status of the task with id `i` in the workflow's task list (a Link's
status delegates to its node, i.e. is read live from the current task list).
Ids assigned by `register` are unique and present; the `S_INIT` default is
returned only for a dangling id, which no registered workflow produces. -/
def statusOfId (tasks : List Task) (i : Nat) : Status :=
  match tasks.find? (fun u => u.task_id == i) with
  | some u => u.status
  | none => .S_INIT

/-- Modelled from the spec: `task.links_status`, the statuses of all upstream
tasks the task's Links reference. -/
def links_status (tasks : List Task) (t : Task) : List Status :=
  t.links.map (statusOfId tasks)

/-- `all([stat == task.S_OK for stat in task.links_status])`
(workflow.py line 504). -/
def allLinksOk (tasks : List Task) (t : Task) : Bool :=
  (links_status tasks t).all (fun st => st == Status.S_OK)

/-- Modelled from the spec: the first pass of `Workflow.check_status` asks
every task to refresh its own status from the underlying external process
(`task.check_status()`, workflow.py lines 499-500); the externally observed
statuses are supplied by the `refresh` oracle, keyed by task id. -/
def applyRefresh (refresh : Nat → Status) (tasks : List Task) : List Task :=
  tasks.map fun t => { t with status := refresh t.task_id }

/-- The second pass of `Workflow.check_status` (workflow.py lines 502-506):

    for task in self:
        if task.status <= task.S_SUB:
            all_ok = all([stat == task.S_OK for stat in task.links_status])
            if all_ok:
                task.set_status(task.S_READY)

The in-place mutation over the task list is modelled by a processed prefix
`done` and a pending suffix `todo`; each step reads link statuses from the
current full list `done ++ t :: todo`. -/
def passGo : List Task → List Task → List Task
  | done, [] => done
  | done, t :: todo =>
    if t.status.toNat ≤ Status.S_SUB.toNat then
      if allLinksOk (done ++ t :: todo) t then
        passGo (done ++ [{ t with status := Status.S_READY }]) todo
      else
        passGo (done ++ [t]) todo
    else
      passGo (done ++ [t]) todo

/-- `Workflow.check_status` (workflow.py lines 497-506): refresh every task's
status from its external process, then promote to READY every task not past
SUB whose upstream link statuses are all OK. -/
def check_status (refresh : Nat → Status) (tasks : List Task) : List Task :=
  passGo [] (applyRefresh refresh tasks)

/-- Modelled from the spec: `task.is_completed` — the task is finished
(successfully or not), i.e. its status is at least DONE. -/
def is_completed (t : Task) : Bool :=
  Status.S_DONE.toNat ≤ t.status.toNat

/-- Modelled from the spec: `task.can_run` — the status indicates readiness
and there is no unmet dependency (every upstream link status is OK). -/
def canRun (tasks : List Task) (t : Task) : Bool :=
  (t.status == Status.S_READY) && allLinksOk tasks t

/-- Outcome of `BaseWorkflow.fetch_task_to_run`: the first runnable task, the
`StopIteration` exhaustion signal, or the `None` returned after the
possible-deadlock warning. -/
inductive FetchResult where
  | found (t : Task)
  | allDone
  | noneAvailable
deriving DecidableEq

/-- `BaseWorkflow.fetch_task_to_run` (workflow.py lines 244-266): first call
`check_status`, then return the first task (in id order) whose `can_run`
holds; if none is runnable, raise `StopIteration` when every task is
completed, otherwise log a possible-deadlock warning and return `None`. -/
def fetch_task_to_run (refresh : Nat → Status) (tasks : List Task) : FetchResult :=
  let s := check_status refresh tasks
  match s.find? (fun t => canRun s t) with
  | some t => .found t
  | none =>
    if s.all is_completed then .allDone else .noneAvailable

/-- Python's binary `min` on statuses compared as integers: keeps the first
argument on ties, as `min` does. -/
def statMin (a b : Status) : Status :=
  if a.toNat ≤ b.toNat then a else b

/-- Python's `min` over a list of statuses; raises on the empty list, so the
embedding returns `none` there. -/
def pyMin : List Status → Option Status
  | [] => none
  | s :: rest => some (rest.foldl statMin s)

/-- `Workflow.get_all_status` without `only_min` (workflow.py lines 480-495):
call `check_status`, then list the (now current) task statuses. -/
def get_all_status (refresh : Nat → Status) (tasks : List Task) : List Status :=
  (check_status refresh tasks).map Task.status

/-- The `Workflow.status` property (workflow.py lines 473-478):
`get_all_status(only_min=True)`, the minimum of the task statuses, recomputed
on demand after `check_status`. -/
def workflow_status (refresh : Nat → Status) (tasks : List Task) : Option Status :=
  pyMin (get_all_status refresh tasks)

/-! ## Resource accounting (workflow.py lines 203-242) -/

/-- `BaseWorkflow.ncpus_reserved`: total `tot_ncpus` over tasks whose status
is `S_SUB` (submitted but not yet running). -/
def ncpus_reserved (tasks : List Task) : Nat :=
  tasks.foldl (fun ncpus t => if t.status = Status.S_SUB then ncpus + t.tot_ncpus else ncpus) 0

/-- `BaseWorkflow.ncpus_allocated`: total `tot_ncpus` over tasks whose status
is in `[S_SUB, S_RUN]`. -/
def ncpus_allocated (tasks : List Task) : Nat :=
  tasks.foldl
    (fun ncpus t =>
      if t.status = Status.S_SUB ∨ t.status = Status.S_RUN then ncpus + t.tot_ncpus else ncpus) 0

/-- `BaseWorkflow.ncpus_inuse`: total `tot_ncpus` over tasks whose status is
`S_RUN`. -/
def ncpus_inuse (tasks : List Task) : Nat :=
  tasks.foldl (fun ncpus t => if t.status = Status.S_RUN then ncpus + t.tot_ncpus else ncpus) 0

/-! ## Registration (workflow.py lines 393-446) -/

/-- A job specification as passed to `Workflow.register`: a `Strategy`
instance, a raw already-fully-specified input object, or any other object.
The Python code distinguishes only `isinstance(obj, Strategy)`; the payload
is opaque to the orchestrator. -/
inductive JobSpec where
  | strategy (data : Nat)
  | rawInput (data : Nat)
  | unrecognized (data : Nat)
deriving DecidableEq

/-- The embedded content of a `Link` object returned by `register`: the id of
the task it references. -/
structure LinkE where
  node_id : Nat
deriving DecidableEq

/-- The mutable state of a `Workflow` relevant to the orchestrator: the
ordered task list `_tasks` (position = task id) and the dependency dictionary
`_links_dict` keyed by task id. -/
structure Workflow where
  tasks : List Task
  links_dict : List (Nat × List LinkE)
deriving DecidableEq

/-- A freshly constructed workflow: no tasks, no dependencies. -/
def emptyWorkflow : Workflow :=
  { tasks := [], links_dict := [] }

/-- Modelled from the spec: `task_factory(obj, workdir, manager, task_id,
links)` derives a new Task from a strategy object; the new task starts in the
INIT state and holds the supplied links. -/
def task_factory (task_id : Nat) (links : List LinkE) : Task :=
  { task_id := task_id, status := .S_INIT, links := links.map LinkE.node_id, tot_ncpus := 1 }

/-- Modelled from the spec: `AbinitTask.from_input(obj, workdir, manager,
task_id, links)` constructs a generic Task directly from a raw input object
(no validation of `obj` is performed by the constructor contract). -/
def abinitTask_from_input (task_id : Nat) (links : List LinkE) : Task :=
  { task_id := task_id, status := .S_INIT, links := links.map LinkE.node_id, tot_ncpus := 1 }

/-- `self._links_dict[task_id].extend(links)` on a `defaultdict(list)`. -/
def extendLinksDict (d : List (Nat × List LinkE)) (k : Nat) (ls : List LinkE) :
    List (Nat × List LinkE) :=
  match d.find? (fun p => p.1 == k) with
  | some _ => d.map fun p => if p.1 = k then (p.1, p.2 ++ ls) else p
  | none => d ++ [(k, ls)]

/-- `Workflow.register(obj, links)` (workflow.py lines 393-446): assign the
next sequential task id, build the task — via `task_factory` when `obj` is a
`Strategy`, otherwise via `AbinitTask.from_input` treating `obj` as a raw
input — append it to the task list, record the links when present, and
return a `Link` to the new task.  The per-task deep copy of the manager, the
optional `task_class` override and the scalar-link wrapping touch only the
external task object and are not part of the orchestrator state. -/
def Workflow.register (w : Workflow) (obj : JobSpec) (links : List LinkE) :
    Workflow × LinkE :=
  let task_id := w.tasks.length
  let task :=
    match obj with
    | .strategy _ => task_factory task_id links
    | _ => abinitTask_from_input task_id links
  let w2 : Workflow := { w with tasks := w.tasks ++ [task] }
  let w3 : Workflow :=
    if links ≠ [] then { w2 with links_dict := extendLinksDict w2.links_dict task_id links }
    else w2
  (w3, { node_id := task_id })

/-! ## The iterative workflow loop (workflow.py lines 636-683) -/

/-- Outcome of `IterativeWork.next_task` (workflow.py lines 636-652): the
strategy generator is exhausted (`StopIteration`), the
`assert len(self) == self.niter` invariant failed (`AssertionError`), or the
workflow extended with the newly registered task. -/
inductive NextTaskResult where
  | stopIteration
  | assertError
  | ok (w : Workflow)
deriving DecidableEq

/-- `IterativeWork.next_task` (workflow.py lines 636-652): pull the next
strategy from the generator (propagating `StopIteration` when exhausted),
register it, and assert that the workflow now holds exactly `niter` tasks.
The lazy generator is modelled by the finite list of strategies it yields. -/
def next_task (w : Workflow) (gen : List JobSpec) (niter : Nat) : NextTaskResult :=
  match gen with
  | [] => .stopIteration
  | s :: _ =>
    let w2 := (Workflow.register w s []).1
    if w2.tasks.length = niter then .ok w2 else .assertError

/-- The loop body of `IterativeWork.submit_tasks` (workflow.py lines
654-683), from a current generator, workflow and iteration counter `niter`:

    while True:
        if self.niter > self.max_niter > 0: break
        try: task = self.next_task()
        except StopIteration: break
        task.start(*args, **kwargs); task.wait()
        data = self.exit_iteration(*args, **kwargs)
        if data["exit"]: break
        self.niter += 1

Running a task and calling the `exit_iteration` hook are external; the
hook's boolean `exit` flag is modelled by the oracle `exit_flag` applied to
the current workflow and iteration counter.  The result is `none` exactly
when the assertion inside `next_task` fails. -/
def submit_tasks_iter (max_niter : Int) (exit_flag : Workflow → Nat → Bool) :
    List JobSpec → Workflow → Nat → Option Workflow
  | gen, w, niter =>
    if (niter : Int) > max_niter ∧ 0 < max_niter then some w
    else
      match gen with
      | [] => some w
      | s :: rest =>
        match next_task w (s :: rest) niter with
        | .stopIteration => some w
        | .assertError => none
        | .ok w2 =>
          if exit_flag w2 niter then some w2
          else submit_tasks_iter max_niter exit_flag rest w2 (niter + 1)

/-- `IterativeWork.submit_tasks` (workflow.py lines 654-683): set `niter = 1`
and run the loop on the workflow's current state. -/
def submit_tasks (max_niter : Int) (exit_flag : Workflow → Nat → Bool)
    (gen : List JobSpec) (w : Workflow) : Option Workflow :=
  submit_tasks_iter max_niter exit_flag gen w 1

/-! ## compute_hints (workflow.py lines 789-838) -/

/-- Modelled from the spec: the Hartree-to-eV unit conversion constant
imported from the units module (`Ha_to_eV = 27.21138386`). -/
def Ha_to_eV : ℚ := 2721138386 / 100000000

/-- The convergence fields of the report dictionary built by `compute_hints`:
the overall `exit` flag and, per accuracy tier, the cutoff energy at which
convergence was first reached (`None` when not converged). -/
structure Hints where
  exit : Bool
  ecut_low : Option ℚ
  ecut_normal : Option ℚ
  ecut_high : Option ℚ
deriving DecidableEq

/-- `compute_hints(ecut_list, etotal, atols_mev, pseudo, min_numpts)`
(workflow.py lines 789-838).  The three tolerances (meV, ordered low, normal,
high) are converted to Hartree by dividing by `1000 * Ha_to_eV`; `check_conv`
runs on `etotal` once per tier — the high tier with the supplied
`min_numpts`, the normal and low tiers with the default `min_numpts=1` —
and `exit = (ihigh != -1)`.  Only when `exit` holds are the per-tier cutoff
values read out of `ecut_list` (with Python indexing, so a sentinel `-1`
index reads the last entry).  The printed table and the pseudo metadata are
pure rendering and are not part of the embedded result. -/
def compute_hints (ecut_list : List ℚ) (etotal : List ℚ) (atols_mev : ℚ × ℚ × ℚ)
    (min_numpts : Int) : Except PyErr Hints :=
  let de_low := atols_mev.1 / (1000 * Ha_to_eV)
  let de_normal := atols_mev.2.1 / (1000 * Ha_to_eV)
  let de_high := atols_mev.2.2 / (1000 * Ha_to_eV)
  match pyGet etotal (-1) with
  | .error e => .error e
  | .ok _ =>
    match checkConv etotal de_high min_numpts "abs" none with
    | .error e => .error e
    | .ok ihigh =>
      match checkConv etotal de_normal 1 "abs" none with
      | .error e => .error e
      | .ok inormal =>
        match checkConv etotal de_low 1 "abs" none with
        | .error e => .error e
        | .ok ilow =>
          if ihigh ≠ -1 then
            match pyGet ecut_list ilow with
            | .error e => .error e
            | .ok el =>
              match pyGet ecut_list inormal with
              | .error e => .error e
              | .ok en =>
                match pyGet ecut_list ihigh with
                | .error e => .error e
                | .ok eh =>
                  .ok { exit := true, ecut_low := some el, ecut_normal := some en,
                        ecut_high := some eh }
          else
            .ok { exit := false, ecut_low := none, ecut_normal := none, ecut_high := none }

/-! ## WorkFlowResults (workflow.py lines 1291-1328) -/

/-- The state of a `WorkFlowResults` dictionary relevant to exception
collection: the ordinary entries (task results, opaque payload) and the list
stored under the reserved `_exceptions` key. -/
structure WorkFlowResults where
  task_results : List (String × Nat)
  exceptions : List String
deriving DecidableEq

/-- Modelled from the spec: Python's `str(exc)` — an exception object is a
pair of an object identity and its stringification, and only the latter is
compared. -/
def pyStr (e : Nat × String) : String := e.2

/-- `WorkFlowResults.push_exceptions(*exceptions)` (workflow.py lines
1311-1315): for each exception in order, append `str(exc)` to the
`_exceptions` entry unless that string is already present. -/
def push_exceptions (r : WorkFlowResults) (excs : List (Nat × String)) : WorkFlowResults :=
  excs.foldl
    (fun acc e =>
      if pyStr e ∈ acc.exceptions then acc
      else { acc with exceptions := acc.exceptions ++ [pyStr e] }) r

end Abiflow

namespace Abiflow

/-! ## Helper lemmas -/

/-- `pyNth` at index `length - 1` is the last element. -/
theorem pyNth_last : ∀ (l : List ℚ) (x : ℚ), l.getLast? = some x → pyNth l (l.length - 1) = x := by
  intro l
  induction l with
  | nil => intro x hx; simp at hx
  | cons v vs ih =>
    intro x hx
    cases vs with
    | nil => simp at hx; simp [pyNth, hx]
    | cons w ws =>
      have h2 : (w :: ws).getLast? = some x := by
        simpa [List.getLast?_cons_cons] using hx
      have hlen : (v :: w :: ws).length - 1 = ((w :: ws).length - 1) + 1 := by
        simp only [List.length_cons]
        omega
      rw [hlen]
      simpa [pyNth] using ih x h2

/-- `pyGet l (-1)` returns the last element of a non-empty list. -/
theorem pyGet_neg_one_eq_getLast (l : List ℚ) (x : ℚ) (h : l.getLast? = some x) :
    pyGet l (-1) = .ok x := by
  have hne : l ≠ [] := by
    intro he; rw [he] at h; simp at h
  have hlen : 1 ≤ l.length := List.length_pos.mpr hne
  have hcond : (0 : Int) ≤ -1 + (l.length : Int) ∧ -1 + (l.length : Int) < (l.length : Int) := by
    omega
  have htoNat : ((-1 : Int) + (l.length : Int)).toNat = l.length - 1 := by omega
  simp only [pyGet]
  rw [if_pos (by norm_num : (-1 : Int) < 0), if_pos hcond, htoNat, pyNth_last l x h]

/-! ## C1: check_conv on the specified inputs -/

/-- C1: at the claim's own first input, `check_conv([10,10,10,9.9999,9.99999],
tol=1e-3, minPoints=1)` evaluates to 1, although every point of the series
deviates from the reference `9.99999` by at most `1e-3` (so the leftmost
qualifying index, which the claim and the function's docstring promise, is 0
and the trailing count `5 - 0 = 5 ≥ 1`); on the oscillating series the code
does return the sentinel -1. -/
theorem C1_check_conv_off_by_one :
    checkConv [10, 10, 10, 99999/10000, 999999/100000] (1/1000) 1 "abs" none = .ok 1
    ∧ (∀ v ∈ [(10 : ℚ), 10, 10, 99999/10000, 999999/100000], |v - 999999/100000| ≤ 1/1000)
    ∧ checkConv [1, 5, 1, 5, 1] (1/1000) 1 "abs" none = .ok (-1) := by
  refine ⟨?_, ?_, ?_⟩
  · norm_num [checkConv, convIndex, pyGet, scanBreak, pyNth, abs_lt, lt_abs, Int.toNat_ofNat]
  · intro v hv
    fin_cases hv <;> rw [abs_le] <;> constructor <;> norm_num
  · norm_num [checkConv, convIndex, pyGet, scanBreak, pyNth, abs_lt, lt_abs, Int.toNat_ofNat]

/-! ## C2: relative mode with a zero reference -/

/-- C2 counterexample: in relative mode with explicit reference 0 the code
raises the interpreter's bare `ZeroDivisionError` from the unguarded
division, not a descriptive (guarded) error. -/
theorem C2_counterexample_bare_zero_division :
    checkConv [1] (1/1000) 1 "rel" (some 0) = .error PyErr.zeroDivisionError
    ∧ isValueError (checkConv [1] (1/1000) 1 "rel" (some 0)) = false := by
  constructor <;> rfl

/-- C2 amended: for every non-empty value list, relative mode with a zero
reference — explicit `vinf=0`, or the default reference when the last value
is 0 — fails immediately with the bare, unguarded `ZeroDivisionError` raised
by the division itself (so no numeric index is returned, but no guard
produces a descriptive error either). -/
theorem C2_rel_mode_zero_ref_unguarded (values : List ℚ) (tol : ℚ) (min_numpts : Int)
    (hne : values ≠ []) :
    checkConv values tol min_numpts "rel" (some 0) = .error PyErr.zeroDivisionError
    ∧ (values.getLast? = some 0 →
        checkConv values tol min_numpts "rel" none = .error PyErr.zeroDivisionError) := by
  constructor
  · simp [checkConv, hne]
  · intro hlast
    rw [checkConv, pyGet_neg_one_eq_getLast values 0 hlast]
    simp [hne]

/-- C2 witness: the amended theorem applied at the one-element list `[0]`
with `tol = 1`, `min_numpts = 1`, in both reference styles. -/
theorem C2_witness :
    checkConv [0] 1 1 "rel" (some 0) = .error PyErr.zeroDivisionError
    ∧ checkConv [0] 1 1 "rel" none = .error PyErr.zeroDivisionError :=
  ⟨(C2_rel_mode_zero_ref_unguarded [0] 1 1 (by simp)).1,
   (C2_rel_mode_zero_ref_unguarded [0] 1 1 (by simp)).2 rfl⟩

/-! ## C6: register and job specifications -/

/-- The task list after `register`: one task is appended, built by
`task_factory` for a strategy and by `AbinitTask.from_input` for anything
else; the dependency dictionary never changes the task list. -/
theorem register_tasks_eq (w : Workflow) (obj : JobSpec) (links : List LinkE) :
    (Workflow.register w obj links).1.tasks
      = w.tasks ++ [match obj with
          | .strategy _ => task_factory w.tasks.length links
          | _ => abinitTask_from_input w.tasks.length links] := by
  cases obj <;> simp only [Workflow.register] <;> split <;> rfl

/-- The length of the task list grows by exactly one on every `register`. -/
theorem register_tasks_length (w : Workflow) (obj : JobSpec) (links : List LinkE) :
    (Workflow.register w obj links).1.tasks.length = w.tasks.length + 1 := by
  rw [register_tasks_eq]
  simp

/-- C6 counterexample: registering an object that is neither a strategy nor a
raw input does not fail and does add a task — on an empty workflow the task
list afterwards has length 1, contradicting the claim that no task is added
and that a job-specification error is raised. -/
theorem C6_counterexample_register_accepts_anything :
    (Workflow.register emptyWorkflow (JobSpec.unrecognized 0) []).1.tasks.length = 1 := by
  rfl

/-- C6 amended: `register` never raises a job-specification error (its
embedded result type has no error outcome because the Python code has no
validation path): an object that is not a recognized strategy is handled by
the raw-input branch and passed to the generic task constructor
`AbinitTask.from_input`, exactly one task is appended for every job
specification, and the returned link references the new task. -/
theorem C6_register_never_rejects (w : Workflow) (links : List LinkE) (d : Nat) :
    (Workflow.register w (JobSpec.unrecognized d) links).1.tasks
      = w.tasks ++ [abinitTask_from_input w.tasks.length links]
    ∧ (Workflow.register w (JobSpec.unrecognized d) links).2.node_id = w.tasks.length
    ∧ ∀ obj : JobSpec,
        (Workflow.register w obj links).1.tasks.length = w.tasks.length + 1 := by
  refine ⟨register_tasks_eq w (JobSpec.unrecognized d) links, rfl,
    fun obj => register_tasks_length w obj links⟩

/-! ## C9: exception deduplication in WorkFlowResults -/

/-- C9: pushing an exception whose stringification is already recorded leaves
the results object unchanged; pushing two exception objects with the same
stringification (regardless of object identity) equals pushing the first
alone, and is idempotent across calls; two distinct new messages are appended
in order, and the other entries of the results object never change. -/
theorem C9_push_exceptions_dedup (r : WorkFlowResults) (e e2 : Nat × String) :
    (pyStr e ∈ r.exceptions → push_exceptions r [e] = r)
    ∧ (pyStr e2 = pyStr e →
        push_exceptions r [e, e2] = push_exceptions r [e]
        ∧ push_exceptions (push_exceptions r [e]) [e2] = push_exceptions r [e])
    ∧ (pyStr e ∉ r.exceptions → pyStr e2 ∉ r.exceptions → pyStr e ≠ pyStr e2 →
        (push_exceptions r [e, e2]).exceptions = r.exceptions ++ [pyStr e, pyStr e2])
    ∧ (push_exceptions r [e, e2]).task_results = r.task_results := by
  have hmem1 : pyStr e ∈ (push_exceptions r [e]).exceptions := by
    simp only [push_exceptions, List.foldl_cons, List.foldl_nil]
    split
    · assumption
    · simp
  refine ⟨?_, ?_, ?_, ?_⟩
  · intro hmem
    simp [push_exceptions, hmem]
  · intro hstr
    have step2 : (fun acc ex =>
        if pyStr ex ∈ acc.exceptions then acc
        else { acc with exceptions := acc.exceptions ++ [pyStr ex] })
          (push_exceptions r [e]) e2 = push_exceptions r [e] := by
      simp only [hstr]
      simp [hmem1]
    constructor
    · simp only [push_exceptions, List.foldl_cons, List.foldl_nil] at step2 ⊢
      exact step2
    · simp only [push_exceptions, List.foldl_cons, List.foldl_nil] at step2 ⊢
      exact step2
  · intro h1 h2 hne
    have hne2 : pyStr e2 ∉ r.exceptions ++ [pyStr e] := by
      intro hmem
      rcases List.mem_append.mp hmem with hA | hB
      · exact h2 hA
      · exact hne (List.mem_singleton.mp hB).symm
    simp [push_exceptions, h1, hne2]
  · simp only [push_exceptions, List.foldl_cons, List.foldl_nil]
    split <;> split <;> rfl

/-- C9 witness: the dedup theorem applied at the concrete results object with
exceptions `["boom"]` and two distinct exception objects that both stringify
to `"boom"`. -/
theorem C9_witness :
    push_exceptions { task_results := [], exceptions := ["boom"] } [(0, "boom")]
      = { task_results := [], exceptions := ["boom"] }
    ∧ push_exceptions { task_results := [], exceptions := ["boom"] } [(0, "boom"), (1, "boom")]
      = push_exceptions { task_results := [], exceptions := ["boom"] } [(0, "boom")] :=
  ⟨(C9_push_exceptions_dedup { task_results := [], exceptions := ["boom"] }
      (0, "boom") (1, "boom")).1 (by simp [pyStr]),
   ((C9_push_exceptions_dedup { task_results := [], exceptions := ["boom"] }
      (0, "boom") (1, "boom")).2.1 rfl).1⟩

/-! ## C10: cpu accounting -/

/-- Folding the conditional accumulation from a shifted start adds the start:
the common shape of the three ncpus aggregations. -/
theorem foldl_countIf_shift (p : Task → Prop) [DecidablePred p] :
    ∀ (l : List Task) (n : Nat),
      l.foldl (fun acc t => if p t then acc + t.tot_ncpus else acc) n
        = n + l.foldl (fun acc t => if p t then acc + t.tot_ncpus else acc) 0 := by
  intro l
  induction l with
  | nil => intro n; simp
  | cons t ts ih =>
    intro n
    simp only [List.foldl_cons]
    by_cases hp : p t
    · rw [if_pos hp, if_pos hp, ih (n + t.tot_ncpus), ih (0 + t.tot_ncpus)]
      omega
    · rw [if_neg hp, if_neg hp, ih n]

/-- C10: over every workflow state, `ncpus_allocated = ncpus_reserved +
ncpus_inuse`; a single task contributes its `tot_ncpus` to `ncpus_reserved`
exactly when its status is SUB, to `ncpus_inuse` exactly when it is RUN, and
to `ncpus_allocated` exactly when it is SUB or RUN; and no status is both SUB
and RUN. -/
theorem C10_ncpus_accounting (tasks : List Task) :
    ncpus_allocated tasks = ncpus_reserved tasks + ncpus_inuse tasks
    ∧ (∀ t : Task, ncpus_reserved [t] = if t.status = Status.S_SUB then t.tot_ncpus else 0)
    ∧ (∀ t : Task, ncpus_inuse [t] = if t.status = Status.S_RUN then t.tot_ncpus else 0)
    ∧ (∀ t : Task, ncpus_allocated [t] =
        if t.status = Status.S_SUB ∨ t.status = Status.S_RUN then t.tot_ncpus else 0)
    ∧ ∀ s : Status, ¬(s = Status.S_SUB ∧ s = Status.S_RUN) := by
  refine ⟨?_, ?_, ?_, ?_, ?_⟩
  · induction tasks with
    | nil => rfl
    | cons t ts ih =>
      simp only [ncpus_allocated, ncpus_reserved, ncpus_inuse, List.foldl_cons] at ih ⊢
      rw [foldl_countIf_shift (fun t => t.status = Status.S_SUB ∨ t.status = Status.S_RUN) ts,
        foldl_countIf_shift (fun t => t.status = Status.S_SUB) ts,
        foldl_countIf_shift (fun t => t.status = Status.S_RUN) ts]
      by_cases hs : t.status = Status.S_SUB
      · have hr : ¬ t.status = Status.S_RUN := by rw [hs]; intro hc; cases hc
        rw [if_pos (Or.inl hs), if_pos hs, if_neg hr]
        omega
      · by_cases hr : t.status = Status.S_RUN
        · rw [if_pos (Or.inr hr), if_neg hs, if_pos hr]
          omega
        · rw [if_neg ?_, if_neg hs, if_neg hr]
          · omega
          · rintro (h | h)
            · exact hs h
            · exact hr h
  · intro t
    simp only [ncpus_reserved, List.foldl_cons, List.foldl_nil]
    split <;> simp
  · intro t
    simp only [ncpus_inuse, List.foldl_cons, List.foldl_nil]
    split <;> simp
  · intro t
    simp only [ncpus_allocated, List.foldl_cons, List.foldl_nil]
    split <;> simp
  · rintro s ⟨h1, h2⟩
    rw [h1] at h2
    cases h2

/-! ## C7: the iterative loop registers one task per iteration, bounded by max_niter -/

/-- Loop invariant of `submit_tasks_iter`: started with one task fewer than
the iteration counter, the loop never fails its assertion and, when
`max_niter` is positive, ends with at most `max (niter - 1) max_niter`
tasks. -/
theorem submit_iter_bound (max_niter : Int) (ef : Workflow → Nat → Bool) :
    ∀ (gen : List JobSpec) (w : Workflow) (niter : Nat),
      w.tasks.length + 1 = niter →
      ∃ w2, submit_tasks_iter max_niter ef gen w niter = some w2
        ∧ (0 < max_niter →
            ((w2.tasks.length : Int) ≤ (niter : Int) - 1 ∨ (w2.tasks.length : Int) ≤ max_niter)) := by
  intro gen
  induction gen with
  | nil =>
    intro w niter hlen
    simp only [submit_tasks_iter]
    split
    · exact ⟨w, rfl, fun _ => Or.inl (by omega)⟩
    · exact ⟨w, rfl, fun _ => Or.inl (by omega)⟩
  | cons s rest ih =>
    intro w niter hlen
    simp only [submit_tasks_iter]
    split
    · exact ⟨w, rfl, fun _ => Or.inl (by omega)⟩
    · rename_i hguard
      have hnt : next_task w (s :: rest) niter = .ok (Workflow.register w s []).1 := by
        simp only [next_task]
        rw [if_pos]
        rw [register_tasks_length]
        omega
      simp only [hnt]
      have hlen2 : (Workflow.register w s []).1.tasks.length = niter := by
        rw [register_tasks_length]; omega
      split
      · refine ⟨(Workflow.register w s []).1, rfl, ?_⟩
        intro hpos
        rw [hlen2]
        right
        omega
      · obtain ⟨w3, hw3, hb⟩ := ih (Workflow.register w s []).1 (niter + 1) (by omega)
        refine ⟨w3, hw3, ?_⟩
        intro hpos
        rcases hb hpos with h | h
        · right
          push_cast at h
          omega
        · exact Or.inr h

/-- C7: with a positive iteration budget, `submit_tasks` started on a fresh
(empty) workflow never trips the `len(self) == niter` assertion and generates
and registers at most `max_niter` tasks; and whenever the one-task-per-
iteration invariant holds (the workflow has `n - 1` tasks) and the generator
is not exhausted, `next_task` succeeds and leaves exactly `n` tasks. -/
theorem C7_submit_tasks_budget (max_niter : Int) (ef : Workflow → Nat → Bool)
    (gen : List JobSpec) (w : Workflow) (hw : w.tasks = []) (hpos : 0 < max_niter) :
    (∃ w2, submit_tasks max_niter ef gen w = some w2
        ∧ (w2.tasks.length : Int) ≤ max_niter)
    ∧ (∀ (w3 : Workflow) (g : List JobSpec) (n : Nat),
        w3.tasks.length + 1 = n → g ≠ [] →
        ∃ w4, next_task w3 g n = .ok w4 ∧ w4.tasks.length = n) := by
  constructor
  · obtain ⟨w2, hrun, hb⟩ := submit_iter_bound max_niter ef gen w 1 (by rw [hw]; rfl)
    refine ⟨w2, hrun, ?_⟩
    rcases hb hpos with h | h
    · omega
    · exact h
  · intro w3 g n hlen hg
    cases g with
    | nil => exact absurd rfl hg
    | cons s rest =>
      refine ⟨(Workflow.register w3 s []).1, ?_, by rw [register_tasks_length]; omega⟩
      simp only [next_task]
      rw [if_pos]
      rw [register_tasks_length]
      omega

/-- C7 witness: the budget theorem applied to a three-strategy generator, a
never-exiting convergence hook and `max_niter = 2` on a fresh workflow. -/
theorem C7_witness :
    ∃ w2, submit_tasks 2 (fun _ _ => false)
        [JobSpec.strategy 0, JobSpec.strategy 1, JobSpec.strategy 2] emptyWorkflow = some w2
      ∧ (w2.tasks.length : Int) ≤ 2 :=
  (C7_submit_tasks_budget 2 (fun _ _ => false)
    [JobSpec.strategy 0, JobSpec.strategy 1, JobSpec.strategy 2] emptyWorkflow rfl
    (by norm_num)).1

/-! ## C5: workflow status is the minimum task status -/

/-- The readiness pass preserves the number of tasks. -/
theorem passGo_length : ∀ (todo done : List Task),
    (passGo done todo).length = done.length + todo.length := by
  intro todo
  induction todo with
  | nil => intro done; simp [passGo]
  | cons t rest ih =>
    intro done
    simp only [passGo]
    split
    · split
      · rw [ih]; simp only [List.length_append, List.length_cons, List.length_nil]; omega
      · rw [ih]; simp only [List.length_append, List.length_cons, List.length_nil]; omega
    · rw [ih]; simp only [List.length_append, List.length_cons, List.length_nil]; omega

/-- `check_status` preserves the number of tasks. -/
theorem check_status_length (refresh : Nat → Status) (tasks : List Task) :
    (check_status refresh tasks).length = tasks.length := by
  simp [check_status, passGo_length, applyRefresh]

/-- The fold behind Python's `min`: the result is an element of the list and
a lower bound for it (statuses compared by their integer values). -/
theorem foldl_statMin_spec : ∀ (rest : List Status) (s : Status),
    rest.foldl statMin s ∈ s :: rest
    ∧ ∀ x ∈ s :: rest, (rest.foldl statMin s).toNat ≤ x.toNat := by
  intro rest
  induction rest with
  | nil =>
    intro s
    refine ⟨by simp, ?_⟩
    intro x hx
    rw [List.mem_singleton] at hx
    rw [hx]
    simp
  | cons r rs ih =>
    intro s
    obtain ⟨hmem, hle⟩ := ih (statMin s r)
    have hcases : statMin s r = s ∨ statMin s r = r := by
      unfold statMin
      split
      · exact Or.inl rfl
      · exact Or.inr rfl
    have hles : (statMin s r).toNat ≤ s.toNat ∧ (statMin s r).toNat ≤ r.toNat := by
      unfold statMin
      split
      · exact ⟨le_refl _, by assumption⟩
      · constructor
        · omega
        · exact le_refl _
    constructor
    · simp only [List.foldl_cons]
      rcases List.mem_cons.mp hmem with h | h
      · rcases hcases with hc | hc <;> rw [h, hc]
        · exact List.mem_cons_self _ _
        · exact List.mem_cons.mpr (Or.inr (List.mem_cons_self _ _))
      · exact List.mem_cons.mpr (Or.inr (List.mem_cons.mpr (Or.inr h)))
    · intro x hx
      simp only [List.foldl_cons]
      have hmin := hle (statMin s r) (List.mem_cons_self _ _)
      rcases List.mem_cons.mp hx with hx1 | hx2
      · rw [hx1]
        exact le_trans hmin hles.1
      · rcases List.mem_cons.mp hx2 with hx1 | hx3
        · rw [hx1]
          exact le_trans hmin hles.2
        · exact hle x (List.mem_cons.mpr (Or.inr hx3))

/-- C5: for a workflow with at least one task, the `status` property — which
recomputes on demand by first running `check_status` — returns exactly the
minimum of the (refreshed and propagated) task statuses: it is one of the
task statuses and a lower bound for all of them. -/
theorem C5_workflow_status_is_min (refresh : Nat → Status) (tasks : List Task)
    (h : tasks ≠ []) :
    ∃ m, workflow_status refresh tasks = some m
      ∧ m ∈ get_all_status refresh tasks
      ∧ ∀ s ∈ get_all_status refresh tasks, m.toNat ≤ s.toNat := by
  have hne : get_all_status refresh tasks ≠ [] := by
    intro hc
    have hl : (get_all_status refresh tasks).length = tasks.length := by
      simp [get_all_status, check_status_length]
    rw [hc] at hl
    simp only [List.length_nil] at hl
    exact h (List.length_eq_zero.mp hl.symm)
  obtain ⟨x, xs, hx⟩ : ∃ x xs, get_all_status refresh tasks = x :: xs := by
    cases hgs : get_all_status refresh tasks with
    | nil => exact absurd hgs hne
    | cons x xs => exact ⟨x, xs, rfl⟩
  obtain ⟨hmem, hle⟩ := foldl_statMin_spec xs x
  refine ⟨xs.foldl statMin x, ?_, ?_, ?_⟩
  · simp [workflow_status, hx, pyMin]
  · rw [hx]; exact hmem
  · rw [hx]; exact hle

/-- C5 witness: the minimum theorem applied to a one-task workflow whose
external refresh reports RUN. -/
theorem C5_witness :
    ∃ m, workflow_status (fun _ => Status.S_RUN)
          [{ task_id := 0, status := Status.S_INIT, links := [], tot_ncpus := 1 }] = some m
      ∧ m ∈ get_all_status (fun _ => Status.S_RUN)
          [{ task_id := 0, status := Status.S_INIT, links := [], tot_ncpus := 1 }]
      ∧ ∀ s ∈ get_all_status (fun _ => Status.S_RUN)
          [{ task_id := 0, status := Status.S_INIT, links := [], tot_ncpus := 1 }],
          m.toNat ≤ s.toNat :=
  C5_workflow_status_is_min (fun _ => Status.S_RUN)
    [{ task_id := 0, status := Status.S_INIT, links := [], tot_ncpus := 1 }] (by simp)

/-! ## C3: fetch_task_to_run -/

/-- `List.find?` characterized as the first element satisfying the predicate:
it returns `some t` exactly when `t` sits at a position `k` with `p t`, and
every earlier element fails `p`. -/
theorem find?_eq_some_iff_first (p : Task → Bool) :
    ∀ (l : List Task) (t : Task),
      l.find? p = some t ↔
        ∃ k : Nat, l[k]? = some t ∧ p t = true
          ∧ ∀ (j : Nat) (u : Task), j < k → l[j]? = some u → p u = false := by
  intro l
  induction l with
  | nil => intro t; simp
  | cons a l ih =>
    intro t
    by_cases hpa : p a = true
    · rw [List.find?_cons_of_pos _ hpa]
      constructor
      · intro h
        have ha : a = t := by injection h
        subst ha
        exact ⟨0, by simp, hpa, fun j u hj _ => absurd hj (Nat.not_lt_zero j)⟩
      · rintro ⟨k, hk, hpt, hfirst⟩
        cases k with
        | zero =>
          simp only [List.getElem?_cons_zero, Option.some.injEq] at hk
          rw [hk]
        | succ k =>
          have hfalse := hfirst 0 a (Nat.succ_pos k) (by simp)
          rw [hpa] at hfalse
          cases hfalse
    · rw [List.find?_cons_of_neg _ hpa]
      rw [ih]
      have hpa' : p a = false := by
        cases h : p a
        · rfl
        · exact absurd h hpa
      constructor
      · rintro ⟨k, hk, hpt, hfirst⟩
        refine ⟨k + 1, by simpa using hk, hpt, ?_⟩
        intro j u hj hju
        cases j with
        | zero =>
          simp only [List.getElem?_cons_zero, Option.some.injEq] at hju
          rw [← hju]
          exact hpa'
        | succ j =>
          exact hfirst j u (Nat.lt_of_succ_lt_succ hj) (by simpa using hju)
      · rintro ⟨k, hk, hpt, hfirst⟩
        cases k with
        | zero =>
          simp only [List.getElem?_cons_zero, Option.some.injEq] at hk
          rw [hk] at hpa'
          rw [hpa'] at hpt
          cases hpt
        | succ k =>
          refine ⟨k, by simpa using hk, hpt, ?_⟩
          intro j u hj hju
          exact hfirst (j + 1) u (Nat.succ_lt_succ hj) (by simpa using hju)

/-- C3: `fetch_task_to_run` first refreshes and propagates statuses via
`check_status`, and on the resulting task list: it returns the first task in
id order whose `can_run` holds; it raises `StopIteration` (exhaustion) when
and only when no task is runnable and every task is completed; and it returns
`None` after the possible-deadlock warning when and only when no task is
runnable and some task is not completed. -/
theorem C3_fetch_task_to_run_spec (refresh : Nat → Status) (tasks : List Task) :
    (∀ t, fetch_task_to_run refresh tasks = .found t ↔
        (∃ k : Nat, (check_status refresh tasks)[k]? = some t
          ∧ canRun (check_status refresh tasks) t = true
          ∧ ∀ (j : Nat) (u : Task), j < k → (check_status refresh tasks)[j]? = some u →
              canRun (check_status refresh tasks) u = false))
    ∧ (fetch_task_to_run refresh tasks = .allDone ↔
        ((∀ t ∈ check_status refresh tasks, canRun (check_status refresh tasks) t = false)
          ∧ ∀ t ∈ check_status refresh tasks, is_completed t = true))
    ∧ (fetch_task_to_run refresh tasks = .noneAvailable ↔
        ((∀ t ∈ check_status refresh tasks, canRun (check_status refresh tasks) t = false)
          ∧ ∃ t ∈ check_status refresh tasks, is_completed t = false)) := by
  have hfetch : fetch_task_to_run refresh tasks
      = (match (check_status refresh tasks).find?
            (fun t => canRun (check_status refresh tasks) t) with
        | some t => FetchResult.found t
        | none =>
          if (check_status refresh tasks).all is_completed then FetchResult.allDone
          else FetchResult.noneAvailable) := rfl
  cases hfd : (check_status refresh tasks).find?
      (fun t => canRun (check_status refresh tasks) t) with
  | some u =>
    rw [hfd] at hfetch
    have hu := (find?_eq_some_iff_first _ _ u).mp hfd
    have humem : u ∈ check_status refresh tasks := List.mem_of_find?_eq_some hfd
    have hurun : canRun (check_status refresh tasks) u = true := List.find?_some hfd
    refine ⟨?_, ?_, ?_⟩
    · intro t
      constructor
      · intro h
        rw [hfetch] at h
        have : u = t := by injection h
        rw [← this]
        exact hu
      · intro hrhs
        have : (check_status refresh tasks).find?
            (fun t => canRun (check_status refresh tasks) t) = some t :=
          (find?_eq_some_iff_first _ _ t).mpr hrhs
        rw [hfd] at this
        have : u = t := by injection this
        rw [hfetch, this]
    · constructor
      · intro h
        rw [hfetch] at h
        cases h
      · rintro ⟨hnone, -⟩
        have := hnone u humem
        rw [hurun] at this
        cases this
    · constructor
      · intro h
        rw [hfetch] at h
        cases h
      · rintro ⟨hnone, -⟩
        have := hnone u humem
        rw [hurun] at this
        cases this
  | none =>
    rw [hfd] at hfetch
    have hnone : ∀ t ∈ check_status refresh tasks,
        canRun (check_status refresh tasks) t = false := by
      intro t ht
      have := List.find?_eq_none.mp hfd t ht
      cases h : canRun (check_status refresh tasks) t
      · rfl
      · exact absurd h this
    cases hall : (check_status refresh tasks).all is_completed with
    | true =>
      rw [if_pos hall] at hfetch
      have hcomp := List.all_eq_true.mp hall
      refine ⟨?_, ?_, ?_⟩
      · intro t
        constructor
        · intro h
          rw [hfetch] at h
          cases h
        · rintro ⟨k, hk, hrun, -⟩
          have ht : t ∈ check_status refresh tasks := List.getElem?_mem hk
          have := hnone t ht
          rw [hrun] at this
          cases this
      · exact ⟨fun _ => ⟨hnone, hcomp⟩, fun _ => hfetch⟩
      · constructor
        · intro h
          rw [hfetch] at h
          cases h
        · rintro ⟨-, t, ht, hfalse⟩
          have := hcomp t ht
          rw [hfalse] at this
          cases this
    | false =>
      rw [if_neg (by rw [hall]; exact Bool.false_ne_true)] at hfetch
      have hnotall : ∃ t ∈ check_status refresh tasks, is_completed t = false := by
        by_contra hc
        push_neg at hc
        have : (check_status refresh tasks).all is_completed = true := by
          rw [List.all_eq_true]
          intro t ht
          cases h : is_completed t
          · exact absurd h (hc t ht)
          · rfl
        rw [hall] at this
        cases this
      refine ⟨?_, ?_, ?_⟩
      · intro t
        constructor
        · intro h
          rw [hfetch] at h
          cases h
        · rintro ⟨k, hk, hrun, -⟩
          have ht : t ∈ check_status refresh tasks := List.getElem?_mem hk
          have := hnone t ht
          rw [hrun] at this
          cases this
      · constructor
        · intro h
          rw [hfetch] at h
          cases h
        · rintro ⟨-, hcomp⟩
          obtain ⟨t, ht, hfalse⟩ := hnotall
          have := hcomp t ht
          rw [hfalse] at this
          cases this
      · exact ⟨fun _ => ⟨hnone, hnotall⟩, fun _ => hfetch⟩

/-! ## C4: readiness propagation in check_status -/

/-- `statusOfId` on a cons whose head matches the id. -/
theorem statusOfId_cons_pos (x : Task) (xs : List Task) (i : Nat)
    (h : (x.task_id == i) = true) : statusOfId (x :: xs) i = x.status := by
  unfold statusOfId
  rw [@List.find?_cons_of_pos Task (fun u => u.task_id == i) x xs h]

/-- `statusOfId` on a cons whose head does not match the id. -/
theorem statusOfId_cons_neg (x : Task) (xs : List Task) (i : Nat)
    (h : ¬(x.task_id == i) = true) : statusOfId (x :: xs) i = statusOfId xs i := by
  unfold statusOfId
  rw [@List.find?_cons_of_neg Task (fun u => u.task_id == i) x xs h]

/-- `statusOfId` over an append: the left part is searched first. -/
theorem statusOfId_append (l1 l2 : List Task) (i : Nat) :
    statusOfId (l1 ++ l2) i
      = (match l1.find? (fun u => u.task_id == i) with
        | some u => u.status
        | none => statusOfId l2 i) := by
  unfold statusOfId
  rw [List.find?_append]
  cases l1.find? (fun u => u.task_id == i) <;> simp

/-- Replacing the element under scrutiny of the readiness pass — either
keeping it or promoting a not-past-SUB task to READY — never changes which
ids read as OK. -/
theorem statusOfId_step (done rest : List Task) (t t' : Task)
    (hid : t'.task_id = t.task_id)
    (hst : t' = t ∨ (t.status.toNat ≤ Status.S_SUB.toNat ∧ t'.status = Status.S_READY))
    (i : Nat) :
    (statusOfId ((done ++ [t']) ++ rest) i = Status.S_OK
      ↔ statusOfId (done ++ t :: rest) i = Status.S_OK) := by
  rw [List.append_assoc, List.singleton_append]
  rw [statusOfId_append done (t' :: rest) i, statusOfId_append done (t :: rest) i]
  cases hfd : done.find? (fun u => u.task_id == i) with
  | some u => exact Iff.rfl
  | none =>
    simp only []
    by_cases hh : (t.task_id == i) = true
    · have hh' : (t'.task_id == i) = true := by rw [hid]; exact hh
      rw [statusOfId_cons_pos _ _ _ hh', statusOfId_cons_pos _ _ _ hh]
      rcases hst with rfl | ⟨hle, hready⟩
      · exact Iff.rfl
      · rw [hready]
        constructor
        · intro hc
          exact absurd hc (by decide)
        · intro hc
          rw [hc] at hle
          simp [Status.toNat] at hle
    · have hh' : ¬(t'.task_id == i) = true := by rw [hid]; exact hh
      rw [statusOfId_cons_neg _ _ _ hh', statusOfId_cons_neg _ _ _ hh]

/-- Link-readiness depends only on the consumer's link ids and on which
producer ids read as OK. -/
theorem allLinksOk_congr (s1 s2 : List Task) (t1 t2 : Task)
    (hlinks : t1.links = t2.links)
    (hok : ∀ i : Nat, statusOfId s1 i = Status.S_OK ↔ statusOfId s2 i = Status.S_OK) :
    allLinksOk s1 t1 = allLinksOk s2 t2 := by
  have hiff : allLinksOk s1 t1 = true ↔ allLinksOk s2 t2 = true := by
    unfold allLinksOk links_status
    rw [hlinks]
    simp only [List.all_eq_true, List.mem_map]
    constructor
    · rintro h x ⟨i, hi, rfl⟩
      have hh := h (statusOfId s1 i) ⟨i, hi, rfl⟩
      rw [beq_iff_eq] at hh ⊢
      exact (hok i).mp hh
    · rintro h x ⟨i, hi, rfl⟩
      have hh := h (statusOfId s2 i) ⟨i, hi, rfl⟩
      rw [beq_iff_eq] at hh ⊢
      exact (hok i).mpr hh
  have hbool : ∀ (a b : Bool), (a = true ↔ b = true) → a = b := by decide
  exact hbool _ _ hiff

/-- Across the whole readiness pass, the set of ids whose status reads OK is
unchanged: promotion only turns not-past-SUB statuses into READY, and neither
is OK. -/
theorem passGo_ok_stable : ∀ (todo done : List Task) (i : Nat),
    (statusOfId (passGo done todo) i = Status.S_OK
      ↔ statusOfId (done ++ todo) i = Status.S_OK) := by
  intro todo
  induction todo with
  | nil => intro done i; simp [passGo]
  | cons t0 rest ih =>
    intro done i
    by_cases hle : t0.status.toNat ≤ Status.S_SUB.toNat
    · by_cases hok : allLinksOk (done ++ t0 :: rest) t0 = true
      · have hstep : passGo done (t0 :: rest)
            = passGo (done ++ [{ t0 with status := Status.S_READY }]) rest := by
          simp only [passGo]
          rw [if_pos hle, if_pos hok]
        rw [hstep, ih _ i]
        exact statusOfId_step done rest t0 { t0 with status := Status.S_READY } rfl
          (Or.inr ⟨hle, rfl⟩) i
      · have hstep : passGo done (t0 :: rest) = passGo (done ++ [t0]) rest := by
          simp only [passGo]
          rw [if_pos hle, if_neg hok]
        rw [hstep, ih _ i]
        exact statusOfId_step done rest t0 t0 rfl (Or.inl rfl) i
    · have hstep : passGo done (t0 :: rest) = passGo (done ++ [t0]) rest := by
        simp only [passGo]
        rw [if_neg hle]
      rw [hstep, ih _ i]
      exact statusOfId_step done rest t0 t0 rfl (Or.inl rfl) i

/-- After the readiness pass, every task not past SUB whose upstream link
statuses all read OK has been promoted to READY (generalized over an already
processed prefix satisfying the same property). -/
theorem passGo_ready : ∀ (todo done : List Task),
    (∀ t ∈ done, t.status.toNat ≤ Status.S_SUB.toNat →
      allLinksOk (done ++ todo) t = true → t.status = Status.S_READY) →
    ∀ t ∈ passGo done todo, t.status.toNat ≤ Status.S_SUB.toNat →
      allLinksOk (passGo done todo) t = true → t.status = Status.S_READY := by
  intro todo
  induction todo with
  | nil =>
    intro done hdone
    simpa [passGo] using hdone
  | cons t0 rest ih =>
    intro done hdone
    by_cases hle : t0.status.toNat ≤ Status.S_SUB.toNat
    · by_cases hok : allLinksOk (done ++ t0 :: rest) t0 = true
      · have hstep : passGo done (t0 :: rest)
            = passGo (done ++ [{ t0 with status := Status.S_READY }]) rest := by
          simp only [passGo]
          rw [if_pos hle, if_pos hok]
        rw [hstep]
        refine ih _ ?_
        intro u hu hule huok
        rcases List.mem_append.mp hu with hud | hus
        · apply hdone u hud hule
          have heq := allLinksOk_congr
            ((done ++ [{ t0 with status := Status.S_READY }]) ++ rest) (done ++ t0 :: rest)
            u u rfl
            (statusOfId_step done rest t0 { t0 with status := Status.S_READY } rfl
              (Or.inr ⟨hle, rfl⟩))
          rw [← heq]
          exact huok
        · rw [List.mem_singleton.mp hus]
      · have hstep : passGo done (t0 :: rest) = passGo (done ++ [t0]) rest := by
          simp only [passGo]
          rw [if_pos hle, if_neg hok]
        rw [hstep]
        refine ih _ ?_
        intro u hu hule huok
        rcases List.mem_append.mp hu with hud | hus
        · apply hdone u hud hule
          have heq := allLinksOk_congr ((done ++ [t0]) ++ rest) (done ++ t0 :: rest)
            u u rfl (statusOfId_step done rest t0 t0 rfl (Or.inl rfl))
          rw [← heq]
          exact huok
        · exfalso
          have hut := List.mem_singleton.mp hus
          have heq := allLinksOk_congr ((done ++ [t0]) ++ rest) (done ++ t0 :: rest)
            u t0 (by rw [hut]) (statusOfId_step done rest t0 t0 rfl (Or.inl rfl))
          rw [heq] at huok
          exact hok huok
    · have hstep : passGo done (t0 :: rest) = passGo (done ++ [t0]) rest := by
        simp only [passGo]
        rw [if_neg hle]
      rw [hstep]
      refine ih _ ?_
      intro u hu hule huok
      rcases List.mem_append.mp hu with hud | hus
      · apply hdone u hud hule
        have heq := allLinksOk_congr ((done ++ [t0]) ++ rest) (done ++ t0 :: rest)
          u u rfl (statusOfId_step done rest t0 t0 rfl (Or.inl rfl))
        rw [← heq]
        exact huok
      · exfalso
        rw [List.mem_singleton.mp hus] at hule
        exact hle hule

/-- Two lists differing only in the element at the junction position agree at
every other position. -/
theorem getElem?_mid_ne (done rest : List Task) (a b : Task) (k : Nat)
    (hk : k ≠ done.length) :
    (done ++ a :: rest)[k]? = (done ++ b :: rest)[k]? := by
  rw [List.getElem?_append, List.getElem?_append]
  split
  · rfl
  · rename_i hlt
    obtain ⟨m, hm⟩ : ∃ m, k - done.length = m + 1 := by
      have : k - done.length ≠ 0 := by omega
      cases h : k - done.length with
      | zero => exact absurd h this
      | succ m => exact ⟨m, rfl⟩
    rw [hm]
    simp

/-- The element at the junction position of `done ++ a :: rest` is `a`. -/
theorem getElem?_append_mid (done rest : List Task) (a : Task) :
    (done ++ a :: rest)[done.length]? = some a := by
  rw [List.getElem?_append_right (le_refl _)]
  simp

/-- Positionwise effect of the readiness pass: each task is either unchanged
or — when not past SUB — promoted to READY with its link statuses all
reading OK in the final state; ids, links and cpu counts never change. -/
theorem passGo_getElem : ∀ (todo done : List Task) (k : Nat) (t : Task),
    (done ++ todo)[k]? = some t →
    ∃ t', (passGo done todo)[k]? = some t'
      ∧ t'.task_id = t.task_id ∧ t'.links = t.links ∧ t'.tot_ncpus = t.tot_ncpus
      ∧ (t' = t ∨ (t.status.toNat ≤ Status.S_SUB.toNat ∧ t'.status = Status.S_READY
          ∧ allLinksOk (passGo done todo) t' = true)) := by
  intro todo
  induction todo with
  | nil =>
    intro done k t hk
    rw [List.append_nil] at hk
    exact ⟨t, by simpa [passGo] using hk, rfl, rfl, rfl, Or.inl rfl⟩
  | cons t0 rest ih =>
    intro done k t hk
    by_cases hle : t0.status.toNat ≤ Status.S_SUB.toNat
    · by_cases hok : allLinksOk (done ++ t0 :: rest) t0 = true
      · have hstep : passGo done (t0 :: rest)
            = passGo (done ++ [{ t0 with status := Status.S_READY }]) rest := by
          simp only [passGo]
          rw [if_pos hle, if_pos hok]
        rw [hstep]
        by_cases hkd : k = done.length
        · have ht : t = t0 := by
            subst hkd
            rw [getElem?_append_mid] at hk
            injection hk with h
            exact h.symm
          have hk2 : ((done ++ [{ t0 with status := Status.S_READY }]) ++ rest)[k]?
              = some { t0 with status := Status.S_READY } := by
            subst hkd
            rw [List.append_assoc, List.singleton_append]
            exact getElem?_append_mid done rest _
          obtain ⟨t', hg, hid, hlinks, hncpus, hrel⟩ :=
            ih (done ++ [{ t0 with status := Status.S_READY }]) k
              { t0 with status := Status.S_READY } hk2
          have htrans : allLinksOk
              (passGo (done ++ [{ t0 with status := Status.S_READY }]) rest)
              { t0 with status := Status.S_READY }
              = allLinksOk (done ++ t0 :: rest) t0 := by
            apply allLinksOk_congr
            · rfl
            · intro i
              exact Iff.trans
                (passGo_ok_stable rest (done ++ [{ t0 with status := Status.S_READY }]) i)
                (statusOfId_step done rest t0 { t0 with status := Status.S_READY } rfl
                  (Or.inr ⟨hle, rfl⟩) i)
          refine ⟨t', hg, ?_, ?_, ?_, ?_⟩
          · rw [hid, ht]
          · rw [hlinks, ht]
          · rw [hncpus, ht]
          · right
            refine ⟨by rw [ht]; exact hle, ?_, ?_⟩
            · rcases hrel with rfl | ⟨-, hst, -⟩
              · rfl
              · exact hst
            · rcases hrel with rfl | ⟨-, -, hlok⟩
              · rw [htrans]
                exact hok
              · exact hlok
        · have hk2 : ((done ++ [{ t0 with status := Status.S_READY }]) ++ rest)[k]?
              = some t := by
            rw [List.append_assoc, List.singleton_append]
            rw [getElem?_mid_ne done rest { t0 with status := Status.S_READY } t0 k hkd]
            exact hk
          exact ih (done ++ [{ t0 with status := Status.S_READY }]) k t hk2
      · have hstep : passGo done (t0 :: rest) = passGo (done ++ [t0]) rest := by
          simp only [passGo]
          rw [if_pos hle, if_neg hok]
        rw [hstep]
        have hk2 : ((done ++ [t0]) ++ rest)[k]? = some t := by
          rw [List.append_assoc, List.singleton_append]
          exact hk
        exact ih (done ++ [t0]) k t hk2
    · have hstep : passGo done (t0 :: rest) = passGo (done ++ [t0]) rest := by
        simp only [passGo]
        rw [if_neg hle]
      rw [hstep]
      have hk2 : ((done ++ [t0]) ++ rest)[k]? = some t := by
        rw [List.append_assoc, List.singleton_append]
        exact hk
      exact ih (done ++ [t0]) k t hk2

/-- C4: after `check_status` — which first refreshes every task's status from
its external process and then propagates readiness — every task whose status
is not past SUB and all of whose upstream link statuses read OK has status
READY; and a task whose status was changed by the propagation pass was
promoted to READY and only with every linked task's status reading OK. -/
theorem C4_check_status_readiness (refresh : Nat → Status) (tasks : List Task) :
    (∀ t ∈ check_status refresh tasks,
        t.status.toNat ≤ Status.S_SUB.toNat →
        allLinksOk (check_status refresh tasks) t = true →
        t.status = Status.S_READY)
    ∧ (∀ (k : Nat) (t t' : Task),
        (applyRefresh refresh tasks)[k]? = some t →
        (check_status refresh tasks)[k]? = some t' →
        t'.status ≠ t.status →
        t'.status = Status.S_READY
          ∧ allLinksOk (check_status refresh tasks) t' = true) := by
  constructor
  · refine passGo_ready (applyRefresh refresh tasks) [] ?_
    intro t ht
    exact absurd ht (List.not_mem_nil t)
  · intro k t t' hk hk2 hne
    obtain ⟨t2, hg, hid, hlinks, hncpus, hrel⟩ :=
      passGo_getElem (applyRefresh refresh tasks) [] k t (by simpa using hk)
    have ht2 : t2 = t' := by
      have hck : (check_status refresh tasks)[k]? = some t2 := hg
      rw [hck] at hk2
      injection hk2
    rcases hrel with rfl | ⟨hle, hst, hok⟩
    · exfalso
      rw [ht2] at hne
      exact hne rfl
    · rw [← ht2]
      exact ⟨hst, hok⟩

/-! ## C8: compute_hints and tier monotonicity -/

/-- The break index never exceeds the loop's starting fuel. -/
theorem scanBreak_le (vdiff : List ℚ) (tol : ℚ) : ∀ k, scanBreak vdiff tol k ≤ k := by
  intro k
  induction k with
  | zero => simp [scanBreak]
  | succ j ih =>
    simp only [scanBreak]
    split
    · exact Nat.le_succ j
    · exact Nat.le_trans ih (Nat.le_succ j)

/-- A looser tolerance can only move the break index left: the set of indices
whose deviation exceeds the tolerance shrinks. -/
theorem scanBreak_anti (vdiff : List ℚ) (tol1 tol2 : ℚ) (htol : tol2 ≤ tol1) :
    ∀ k, scanBreak vdiff tol1 k ≤ scanBreak vdiff tol2 k := by
  intro k
  induction k with
  | zero => exact le_refl 0
  | succ j ih =>
    simp only [scanBreak]
    by_cases h1 : tol1 < pyNth vdiff j
    · rw [if_pos h1, if_pos (lt_of_le_of_lt htol h1)]
    · rw [if_neg h1]
      by_cases h2 : tol2 < pyNth vdiff j
      · rw [if_pos h2]
        exact scanBreak_le vdiff tol1 j
      · rw [if_neg h2]
        exact ih

/-- Monotonicity of the index computation in the tolerance: if the strict
tier (tolerance `tol2`, minimum count `m ≥ 1`) converged at `i2`, then any
looser tier (`tol1 ≥ tol2`, with the default minimum count 1) converges at
an index `i1` with `1 ≤ i1 ≤ i2`. -/
theorem convIndex_mono (vdiff : List ℚ) (tol1 tol2 : ℚ) (m i2 : Int)
    (hm : 1 ≤ m) (htol : tol2 ≤ tol1)
    (h2 : convIndex vdiff tol2 m = .ok i2) (hne : i2 ≠ -1) :
    ∃ i1, convIndex vdiff tol1 1 = .ok i1 ∧ i1 ≠ -1 ∧ i1 ≤ i2 ∧ 1 ≤ i1 := by
  simp only [convIndex] at h2
  split at h2
  case isFalse => exact absurd (by injection h2 with h; exact h.symm) hne
  case isTrue hgt =>
    cases hd2 : pyGet vdiff (-2) with
    | error e =>
      rw [hd2] at h2
      cases h2
    | ok d2 =>
      rw [hd2] at h2
      simp only [] at h2
      split at h2
      case isFalse => exact absurd (by injection h2 with h; exact h.symm) hne
      case isTrue hlt2 =>
        split at h2
        case isTrue => exact absurd (by injection h2 with h; exact h.symm) hne
        case isFalse hres2 =>
          have hi2 : i2 = (scanBreak vdiff tol2 vdiff.length : Int) + 1 := by
            injection h2 with h
            exact h.symm
          have hanti := scanBreak_anti vdiff tol1 tol2 htol vdiff.length
          have hres1 : ¬ (((vdiff.length : Int)
              - (scanBreak vdiff tol1 vdiff.length : Int) - 1) < 1) := by
            push_neg at hres2 ⊢
            have : (scanBreak vdiff tol1 vdiff.length : Int)
                ≤ (scanBreak vdiff tol2 vdiff.length : Int) := by
              exact_mod_cast hanti
            omega
          refine ⟨(scanBreak vdiff tol1 vdiff.length : Int) + 1, ?_, by omega, ?_, by omega⟩
          · simp only [convIndex]
            rw [if_pos (by omega : ((vdiff.length : Nat) : Int) > 1), hd2]
            simp only []
            rw [if_pos (lt_of_lt_of_le hlt2 htol), if_neg hres1]
          · rw [hi2]
            have : (scanBreak vdiff tol1 vdiff.length : Int)
                ≤ (scanBreak vdiff tol2 vdiff.length : Int) := by
              exact_mod_cast hanti
            omega

/-- In absolute mode with the default reference, `checkConv` is the index
computation over the shared deviation list. -/
theorem checkConv_abs_eq (values : List ℚ) (tol : ℚ) (m : Int) (vinf : ℚ)
    (hv : pyGet values (-1) = .ok vinf) :
    checkConv values tol m "abs" none
      = convIndex (values.map fun v => |v - vinf|) tol m := by
  unfold checkConv
  rw [hv]
  rfl

/-- When the default reference cannot be read (empty list), `checkConv`
propagates the error. -/
theorem checkConv_err_eq (values : List ℚ) (tol : ℚ) (m : Int) (mode : String)
    (e : PyErr) (hv : pyGet values (-1) = .error e) :
    checkConv values tol m mode none = .error e := by
  unfold checkConv
  rw [hv]

/-- `checkConv` monotonicity in absolute mode with the default reference: the
deviation list is shared, so convergence of a strict tier forces convergence
of every looser tier at an index no further right. -/
theorem checkConv_mono (values : List ℚ) (tol1 tol2 : ℚ) (m i2 : Int)
    (hm : 1 ≤ m) (htol : tol2 ≤ tol1)
    (h2 : checkConv values tol2 m "abs" none = .ok i2) (hne : i2 ≠ -1) :
    ∃ i1, checkConv values tol1 1 "abs" none = .ok i1 ∧ i1 ≠ -1 ∧ i1 ≤ i2 ∧ 1 ≤ i1 := by
  cases hv : pyGet values (-1) with
  | error e =>
    rw [checkConv_err_eq values tol2 m "abs" e hv] at h2
    cases h2
  | ok vinf =>
    rw [checkConv_abs_eq values tol2 m vinf hv] at h2
    rw [checkConv_abs_eq values tol1 1 vinf hv]
    exact convIndex_mono (values.map fun v => |v - vinf|) tol1 tol2 m i2 hm htol h2 hne

/-- Dividing by the positive unit-conversion factor preserves the ordering of
the three tolerances. -/
theorem atol_div_mono (a b : ℚ) (hab : a ≤ b) :
    a / (1000 * Ha_to_eV) ≤ b / (1000 * Ha_to_eV) := by
  have hc : (0 : ℚ) < 1000 * Ha_to_eV := by norm_num [Ha_to_eV]
  exact (div_le_div_iff_of_pos_right hc).mpr hab

/-- C8: whenever `compute_hints` returns a report, its `exit` flag is true
exactly when the tightest ("high") tier's `check_conv` returned an index
distinct from the sentinel -1; and with tolerances ordered
`low ≥ normal ≥ high` and `min_numpts ≥ 1`, an `exit = true` report carries
three non-null parameter values whose convergence iteration indices satisfy
`low ≤ normal ≤ high`. -/
theorem C8_compute_hints_tiers (ecut_list etotal : List ℚ) (alow anormal ahigh : ℚ)
    (min_numpts : Int) (data : Hints)
    (hok : compute_hints ecut_list etotal (alow, anormal, ahigh) min_numpts = .ok data) :
    (data.exit = true ↔
      ∃ ih : Int, checkConv etotal (ahigh / (1000 * Ha_to_eV)) min_numpts "abs" none = .ok ih
        ∧ ih ≠ -1)
    ∧ (1 ≤ min_numpts → ahigh ≤ anormal → anormal ≤ alow → data.exit = true →
        data.ecut_low.isSome ∧ data.ecut_normal.isSome ∧ data.ecut_high.isSome
        ∧ ∃ il inm ihg : Int,
            checkConv etotal (alow / (1000 * Ha_to_eV)) 1 "abs" none = .ok il
            ∧ checkConv etotal (anormal / (1000 * Ha_to_eV)) 1 "abs" none = .ok inm
            ∧ checkConv etotal (ahigh / (1000 * Ha_to_eV)) min_numpts "abs" none = .ok ihg
            ∧ il ≠ -1 ∧ inm ≠ -1 ∧ ihg ≠ -1 ∧ il ≤ inm ∧ inm ≤ ihg) := by
  unfold compute_hints at hok
  simp only [] at hok
  cases he : pyGet etotal (-1) with
  | error e =>
    rw [he] at hok
    have hcast : (Except.error e : Except PyErr Hints) = Except.ok data := hok
    cases hcast
  | ok einf =>
    rw [he] at hok
    cases hih : checkConv etotal (ahigh / (1000 * Ha_to_eV)) min_numpts "abs" none with
    | error e =>
      rw [hih] at hok
      have hcast : (Except.error e : Except PyErr Hints) = Except.ok data := hok
      cases hcast
    | ok ihigh =>
      rw [hih] at hok
      cases hin : checkConv etotal (anormal / (1000 * Ha_to_eV)) 1 "abs" none with
      | error e =>
        rw [hin] at hok
        have hcast : (Except.error e : Except PyErr Hints) = Except.ok data := hok
        cases hcast
      | ok inormal =>
        rw [hin] at hok
        cases hil : checkConv etotal (alow / (1000 * Ha_to_eV)) 1 "abs" none with
        | error e =>
          rw [hil] at hok
          have hcast : (Except.error e : Except PyErr Hints) = Except.ok data := hok
          cases hcast
        | ok ilow =>
          rw [hil] at hok
          simp only [] at hok
          by_cases hexit : ihigh = -1
          · rw [if_neg (not_not_intro hexit)] at hok
            have hdata : data = Hints.mk false none none none := by
              have hcast : Except.ok (Hints.mk false none none none) = Except.ok data := hok
              injection hcast with h
              exact h.symm
            constructor
            · rw [hdata]
              constructor
              · intro hc
                cases hc
              · rintro ⟨ih2, hih2, hne2⟩
                injection hih2 with h
                exact absurd (h.symm.trans hexit) hne2
            · intro _ _ _ hexit2
              rw [hdata] at hexit2
              cases hexit2
          · rw [if_pos hexit] at hok
            cases hel : pyGet ecut_list ilow with
            | error e =>
              rw [hel] at hok
              have hcast : (Except.error e : Except PyErr Hints) = Except.ok data := hok
              cases hcast
            | ok el =>
              rw [hel] at hok
              cases hen : pyGet ecut_list inormal with
              | error e =>
                rw [hen] at hok
                have hcast : (Except.error e : Except PyErr Hints) = Except.ok data := hok
                cases hcast
              | ok en =>
                rw [hen] at hok
                cases heh : pyGet ecut_list ihigh with
                | error e =>
                  rw [heh] at hok
                  have hcast : (Except.error e : Except PyErr Hints) = Except.ok data := hok
                  cases hcast
                | ok eh =>
                  rw [heh] at hok
                  have hdata : data = Hints.mk true (some el) (some en) (some eh) := by
                    have hcast : Except.ok (Hints.mk true (some el) (some en) (some eh))
                        = Except.ok data := hok
                    injection hcast with h
                    exact h.symm
                  constructor
                  · rw [hdata]
                    exact ⟨fun _ => ⟨ihigh, rfl, hexit⟩, fun _ => rfl⟩
                  · intro hm hha hna _
                    obtain ⟨inm2, hin2, hnne, hnle, hnge⟩ :=
                      checkConv_mono etotal (anormal / (1000 * Ha_to_eV))
                        (ahigh / (1000 * Ha_to_eV)) min_numpts ihigh hm
                        (atol_div_mono ahigh anormal hha) hih hexit
                    rw [hin] at hin2
                    have hinm2 : inm2 = inormal := by injection hin2 with h; exact h.symm
                    rw [hinm2] at hnne hnle
                    obtain ⟨il2, hil2, hlne, hlle, hlge⟩ :=
                      checkConv_mono etotal (alow / (1000 * Ha_to_eV))
                        (anormal / (1000 * Ha_to_eV)) 1 inormal (le_refl 1)
                        (atol_div_mono anormal alow hna) hin hnne
                    rw [hil] at hil2
                    have hil3 : il2 = ilow := by injection hil2 with h; exact h.symm
                    rw [hil3] at hlne hlle
                    rw [hdata]
                    exact ⟨rfl, rfl, rfl, ilow, inormal, ihigh, rfl, rfl, rfl,
                      hlne, hnne, hexit, hlle, hnle⟩

/-- C8 witness: the tier theorem applied to the strictly decreasing,
plateauing series `[10, 2, 1, 1]` over cutoffs `[1, 2, 3, 4]` with meV
tolerances `(1000, 100, 10) * Ha_to_eV` (so the converted tolerances are
`1 ≥ 1/10 ≥ 1/100`) and `min_numpts = 1`. -/
theorem C8_witness :
    ((Hints.mk true (some 2) (some 3) (some 3)).exit = true ↔
      ∃ ih : Int, checkConv [10, 2, 1, 1] (10 * Ha_to_eV / (1000 * Ha_to_eV)) 1 "abs" none
          = .ok ih ∧ ih ≠ -1)
    ∧ (1 ≤ (1 : Int) → (10 * Ha_to_eV : ℚ) ≤ 100 * Ha_to_eV →
        (100 * Ha_to_eV : ℚ) ≤ 1000 * Ha_to_eV →
        (Hints.mk true (some 2) (some 3) (some 3)).exit = true →
        (Hints.mk true (some 2) (some 3) (some 3)).ecut_low.isSome
        ∧ (Hints.mk true (some 2) (some 3) (some 3)).ecut_normal.isSome
        ∧ (Hints.mk true (some 2) (some 3) (some 3)).ecut_high.isSome
        ∧ ∃ il inm ihg : Int,
            checkConv [10, 2, 1, 1] (1000 * Ha_to_eV / (1000 * Ha_to_eV)) 1 "abs" none = .ok il
            ∧ checkConv [10, 2, 1, 1] (100 * Ha_to_eV / (1000 * Ha_to_eV)) 1 "abs" none = .ok inm
            ∧ checkConv [10, 2, 1, 1] (10 * Ha_to_eV / (1000 * Ha_to_eV)) 1 "abs" none = .ok ihg
            ∧ il ≠ -1 ∧ inm ≠ -1 ∧ ihg ≠ -1 ∧ il ≤ inm ∧ inm ≤ ihg) :=
  C8_compute_hints_tiers [1, 2, 3, 4] [10, 2, 1, 1]
    (1000 * Ha_to_eV) (100 * Ha_to_eV) (10 * Ha_to_eV) 1
    (Hints.mk true (some 2) (some 3) (some 3))
    (by norm_num [compute_hints, checkConv, convIndex, pyGet, scanBreak, pyNth, Ha_to_eV,
      abs_lt, lt_abs, Int.toNat_ofNat])

end Abiflow
